import Mathlib

/-!
Verification development for the NNCF range-initialization subsystem.

The range-initialization engine resolves, for every quantization insertion
point, a range-initialization configuration from an ordered list of per-layer
scope rules with a global default, drives calibration batches through
statistic collectors (min_max, mixed_min_max, mean_min_max, threesigma,
percentile), and turns the collected min/max statistics into correctly shaped
quantizer scale parameters.

The resolution engine, the statistic collectors, the quantizer
initialization and the checkpoint loading are modelled from the system
specification (their sources are exercised only through
tests/torch/quantization/test_range_init.py); the L2Norm example layer is
embedded directly from examples/torch/object_detection/layers/modules/l2norm.py.
-/

set_option maxRecDepth 10000

/-! ## Elementary list statistics used by the statistic collectors -/

/-- Minimum of a list of rationals (0 for the empty list; collectors never
reduce an empty tensor). -/
def listMin : List ℚ → ℚ
  | [] => 0
  | x :: xs => xs.foldl min x

/-- Maximum of a list of rationals (0 for the empty list). -/
def listMax : List ℚ → ℚ
  | [] => 0
  | x :: xs => xs.foldl max x

/-- Ascending sort, the order used by median and percentile computations. -/
def sortList (l : List ℚ) : List ℚ := l.insertionSort (· ≤ ·)

/-- Median with linear interpolation between the two middle elements for
even-length data, as numpy's median computes it. -/
def listMedian (l : List ℚ) : ℚ :=
  let s := sortList l
  let n := s.length
  if n = 0 then 0
  else if n % 2 = 1 then s.getD (n / 2) 0
  else (s.getD (n / 2 - 1) 0 + s.getD (n / 2) 0) / 2

/-- Median of absolute deviations from the median. -/
def listMAD (l : List ℚ) : ℚ :=
  listMedian (l.map (fun x => |x - listMedian l|))

/-- Arithmetic mean of a list of rationals (0 for the empty list). -/
def popMean (l : List ℚ) : ℚ := l.sum / l.length

/-- Population variance of a list of rationals. -/
def popVariance (l : List ℚ) : ℚ :=
  (l.map (fun x => (x - popMean l) ^ 2)).sum / l.length

/-- Value at percentile `q` (in [0,100]) of the sorted data, using the linear
interpolation rule of numpy's percentile. -/
def percentileValue (l : List ℚ) (q : ℚ) : ℚ :=
  let s := sortList l
  let n := s.length
  if n = 0 then 0
  else
    let pos : ℚ := q / 100 * ((n : ℚ) - 1)
    let i : ℕ := pos.floor.toNat
    let frac : ℚ := pos - (i : ℚ)
    if i + 1 < n then s.getD i 0 + frac * (s.getD (i + 1) 0 - s.getD i 0)
    else s.getD (n - 1) 0

/-! ## Configuration data model

Modelled from the spec: `RangeInitConfig` is an initializer type plus a
sample count plus optional algorithm-specific parameters;
`PerLayerRangeInitConfig` extends it with an applicability predicate
(target scopes, ignored scopes, quantizer-group filter). Numeric parameter
values (percentile bounds) are modelled as rationals. -/

inductive QuantizerGroup
  | WEIGHTS
  | ACTIVATIONS
deriving DecidableEq

structure RangeInitConfig where
  init_type : String
  num_init_samples : ℕ
  init_type_specific_params : List (String × ℚ) := []
deriving DecidableEq

structure PerLayerRangeInitConfig where
  base : RangeInitConfig
  target_scopes : Option (List String) := none
  ignored_scopes : Option (List String) := none
  target_quantizer_group : Option QuantizerGroup := none
deriving DecidableEq

/-- A quantization insertion point as seen by config resolution: the node
identifier string matched against scope patterns, and the quantizer group. -/
structure QuantizationPoint where
  node_name : String
  group : QuantizerGroup
deriving DecidableEq

structure RangeInitParams where
  global_init_config : Option RangeInitConfig
  per_layer_range_init_configs : List PerLayerRangeInitConfig

inductive RangeInitError
  | configurationError
deriving DecidableEq

/-- Modelled from the spec: a per-layer rule applies to a quantization point
iff the quantizer-group filter is unset or equal to the point's group, AND
the target scopes are unset or some target pattern matches the node
identifier, AND the ignored scopes are unset or no ignored pattern matches.
The scope matcher itself (exact string equality, or a search-anywhere
regular expression for patterns carrying the reserved re-marker prefix) is an
external component and is abstracted as the `matchFn` parameter. -/
def ruleApplies (matchFn : String → String → Bool) (qp : QuantizationPoint)
    (r : PerLayerRangeInitConfig) : Bool :=
  (match r.target_quantizer_group with
   | none => true
   | some g => g = qp.group)
  && (match r.target_scopes with
      | none => true
      | some pats => pats.any (fun p => matchFn qp.node_name p))
  && (match r.ignored_scopes with
      | none => true
      | some pats => pats.all (fun p => !matchFn qp.node_name p))

/-- One step of rule iteration: an applicable rule overrides the
configuration accumulated so far. -/
def resolveStep (matchFn : String → String → Bool) (qp : QuantizationPoint)
    (acc : Option RangeInitConfig) (r : PerLayerRangeInitConfig) :
    Option RangeInitConfig :=
  if ruleApplies matchFn qp r then some r.base else acc

/-- Modelled from the spec: start from the global default, iterate the
per-layer rules in declaration order letting every applicable rule override
the accumulated configuration (last applicable rule wins), and fail with a
configuration error when nothing is left to return. -/
def get_init_config_for_quantization_point (matchFn : String → String → Bool)
    (params : RangeInitParams) (qp : QuantizationPoint) :
    Except RangeInitError RangeInitConfig :=
  match params.per_layer_range_init_configs.foldl (resolveStep matchFn qp)
      params.global_init_config with
  | some c => Except.ok c
  | none => Except.error RangeInitError.configurationError

/-! ## Statistic collectors

Modelled from the spec: every collector is a stateful accumulator fed by
`register_input` and read out once by `get_statistics`. A registered batch is
modelled by the list of rational values the collector reduces over for one
output element (the whole flattened tensor for per-tensor statistics, one
channel slice for per-channel statistics). -/

/-- Running elementwise min/max state: nothing before the first batch, then
the (min, max) accumulated so far. -/
def MinMaxState := Option (ℚ × ℚ)

/-- Modelled from the spec: `min_max` keeps a running elementwise min/max
across all batches. -/
def minMaxRegister (s : MinMaxState) (batch : List ℚ) : MinMaxState :=
  match s with
  | none => some (listMin batch, listMax batch)
  | some (mn, mx) => some (min mn (listMin batch), max mx (listMax batch))

def minMaxCollect (batches : List (List ℚ)) : MinMaxState :=
  batches.foldl minMaxRegister none

/-- Running state of the `mean_min_max` collector: sum of per-batch minima,
sum of per-batch maxima, and the batch count (O(1) memory, no buffering). -/
structure MeanMinMaxState where
  minSum : ℚ
  maxSum : ℚ
  count : ℕ
deriving DecidableEq

/-- Modelled from the spec: `mean_min_max` adds the current batch's min and
max to running sums and bumps the count. -/
def meanMinMaxRegister (s : MeanMinMaxState) (batch : List ℚ) : MeanMinMaxState :=
  { minSum := s.minSum + listMin batch
    maxSum := s.maxSum + listMax batch
    count := s.count + 1 }

def meanMinMaxCollect (batches : List (List ℚ)) : MeanMinMaxState :=
  batches.foldl meanMinMaxRegister { minSum := 0, maxSum := 0, count := 0 }

/-- Final statistic of `mean_min_max`: arithmetic mean of the per-batch
minima and of the per-batch maxima. -/
def meanMinMaxStat (s : MeanMinMaxState) : ℚ × ℚ :=
  (s.minSum / (s.count : ℚ), s.maxSum / (s.count : ℚ))

/-- Buffering collectors (`threesigma`, `percentile`) grow a buffer of all
input values across batches. -/
def bufferCollect (batches : List (List ℚ)) : List ℚ :=
  batches.foldl (· ++ ·) []

/-- Consistency constant turning a median absolute deviation into a standard
deviation estimate. -/
def madToStdFactor : ℚ := 14826 / 10000

/-- The `threesigma` collector's final lower bound over its buffered
population: median minus three times the MAD-based deviation estimate. -/
def threeSigmaStatMin (buffer : List ℚ) : ℚ :=
  listMedian buffer - 3 * madToStdFactor * listMAD buffer

/-- The `threesigma` collector's final upper bound over its buffered
population: median plus three times the MAD-based deviation estimate. -/
def threeSigmaStatMax (buffer : List ℚ) : ℚ :=
  listMedian buffer + 3 * madToStdFactor * listMAD buffer

/-- The statistic the specification text ascribes to `threesigma`: the
population mean plus three times the population standard deviation of the
buffered values. Stated over the reals because the standard deviation of
rational data is irrational; used to compare the specified formula with the
reference band of the test fixture. -/
noncomputable def specMeanStdUpper (buffer : List ℚ) : ℝ :=
  (popMean buffer : ℝ) + 3 * Real.sqrt ((popVariance buffer : ℝ))

/-- Mean of per-batch minima and maxima together with the absolute extremes,
the two ingredients of `mixed_min_max`. -/
def mixedMinMaxStat (batches : List (List ℚ)) : ℚ × ℚ :=
  let s := meanMinMaxCollect batches
  let meanMin := s.minSum / (s.count : ℚ)
  let meanMax := s.maxSum / (s.count : ℚ)
  let absMin := listMin (bufferCollect batches)
  let absMax := listMax (bufferCollect batches)
  ((if (decide (meanMin < 0)) = (decide (absMin < 0)) then meanMin else absMin),
   (if (decide (meanMax < 0)) = (decide (absMax < 0)) then meanMax else absMax))

/-- Look up a named algorithm parameter such as a percentile bound. -/
def lookupParam (ps : List (String × ℚ)) (key : String) (dflt : ℚ) : ℚ :=
  match ps.find? (fun p => p.1 = key) with
  | some p => p.2
  | none => dflt

/-- Modelled from the spec: the statistic-collector factory dispatches on the
initializer type and the built collector reduces the registered batches to a
final (min, max) statistic; an unknown initializer type is a configuration
error (`none`), detected at construction and never at registration time. -/
def statByType (ty : String) (ps : List (String × ℚ)) (batches : List (List ℚ)) :
    Option (ℚ × ℚ) :=
  if ty = "min_max" then minMaxCollect batches
  else if ty = "mixed_min_max" then some (mixedMinMaxStat batches)
  else if ty = "mean_min_max" then some (meanMinMaxStat (meanMinMaxCollect batches))
  else if ty = "threesigma" then
    some (threeSigmaStatMin (bufferCollect batches), threeSigmaStatMax (bufferCollect batches))
  else if ty = "percentile" then
    some (percentileValue (bufferCollect batches) (lookupParam ps "min_percentile" 10),
          percentileValue (bufferCollect batches) (lookupParam ps "max_percentile" 90))
  else none

def knownInitTypes : List String :=
  ["min_max", "mixed_min_max", "mean_min_max", "threesigma", "percentile"]

/-! ## Tensors and the scale-shape contract -/

/-- A tensor as the statistics pipeline sees it: a shape and the row-major
flattened data. -/
structure PTTensor where
  shape : List ℕ
  data : List ℚ

/-- Well-formedness: the flattened data has exactly as many entries as the
shape prescribes. -/
def PTTensor.wf (t : PTTensor) : Prop := t.data.length = t.shape.prod

/-- Modelled from the spec: the scale shape derived by the collector
parameters at construction: `[1]` for per-tensor statistics, and the input
shape with every axis except the channel axis set to 1 for per-channel
statistics. -/
def scale_shape (input_shape : List ℕ) (per_channel : Bool) (channel_axis : ℕ) :
    List ℕ :=
  if per_channel then
    input_shape.mapIdx (fun i d => if i = channel_axis then d else 1)
  else [1]

/-- Number of flattened positions that one step along `axis` spans. -/
def strideAfter (shape : List ℕ) (axis : ℕ) : ℕ := (shape.drop (axis + 1)).prod

/-- Size of the given axis (1 when the axis is out of range). -/
def dimAt (shape : List ℕ) (axis : ℕ) : ℕ := shape.getD axis 1

/-- Channel index of a flattened position. -/
def channelOf (shape : List ℕ) (axis : ℕ) (k : ℕ) : ℕ :=
  (k / strideAfter shape axis) % dimAt shape axis

/-- All values of one channel slice of a tensor, in flattened order. -/
def channelSlice (t : PTTensor) (axis c : ℕ) : List ℚ :=
  ((t.data.enum.filter (fun p => channelOf t.shape axis p.1 = c)).map (fun p => p.2))

/-- Modelled from the spec: a bound collector reduces every registered batch
per output element — over the whole flattened tensor for per-tensor
statistics, independently per channel slice for per-channel statistics — and
emits min/max tensors of exactly the derived scale shape. -/
def collectorStatTensors (ty : String) (ps : List (String × ℚ)) (per_channel : Bool)
    (axis : ℕ) (batches : List PTTensor) : Option (PTTensor × PTTensor) :=
  match batches with
  | [] => none
  | t0 :: _ =>
    if per_channel then
      let n := dimAt t0.shape axis
      let stats := (List.range n).map
        (fun c => statByType ty ps (batches.map (fun t => channelSlice t axis c)))
      if stats.all (fun o => o.isSome) then
        some ({ shape := scale_shape t0.shape true axis,
                data := stats.map (fun o => (o.getD (0, 0)).1) },
              { shape := scale_shape t0.shape true axis,
                data := stats.map (fun o => (o.getD (0, 0)).2) })
      else none
    else
      match statByType ty ps (batches.map (fun t => t.data)) with
      | some (mn, mx) => some ({ shape := [1], data := [mn] }, { shape := [1], data := [mx] })
      | none => none

/-! ## Quantizer numeric initialization -/

/-- The mutable numeric state of a symmetric quantizer: signedness and scale. -/
structure QuantizerState where
  signed : Bool
  scale : ℚ
deriving DecidableEq

/-- The default (uninitialized) state a quantizer is built with. -/
def defaultQuantizerState : QuantizerState := { signed := false, scale := 1 }

/-- Modelled from the spec: symmetric `apply_minmax_init` sets the scale to
the elementwise maximum of the absolute statistics with a small epsilon
floor, and infers signedness from the presence of a negative minimum unless
a forced signedness overrides it. -/
def applyMinMaxInit (force : Option Bool) (eps : ℚ) (_q : QuantizerState)
    (mn mx : ℚ) : QuantizerState :=
  { signed := force.getD (decide (mn < 0))
    scale := max (max |mn| |mx|) eps }

/-- Elementwise symmetric scale tensor from min/max statistic tensors. -/
def symScaleTensor (eps : ℚ) (mnT mxT : PTTensor) : PTTensor :=
  { shape := mnT.shape
    data := (mnT.data.zip mxT.data).map (fun p => max (max |p.1| |p.2|) eps) }

/-- Elementwise asymmetric input_low tensor: the minimum clamped to at most
zero. -/
def asymLowTensor (mnT : PTTensor) : PTTensor :=
  { shape := mnT.shape, data := mnT.data.map (fun v => min v 0) }

/-- Elementwise asymmetric input_range tensor: max minus min with a floor to
avoid a degenerate zero-width range. -/
def asymRangeTensor (eps : ℚ) (mnT mxT : PTTensor) : PTTensor :=
  { shape := mnT.shape
    data := (mnT.data.zip mxT.data).map (fun p => max (p.2 - p.1) eps) }

/-- Outcome of running range initialization for one quantizer: its final
state and how many calibration batches were registered into its collector. -/
structure RangeInitOutcome where
  state : QuantizerState
  registeredBatches : ℕ
deriving DecidableEq

/-- Modelled from the spec: the range-initialization driver for a single
quantizer. When the resolved sample count is zero the caller skips statistic
collection entirely and the quantizer keeps its default state; otherwise it
registers up to `num_init_samples` calibration batches into the collector
built for the resolved initializer type and applies the resulting min/max
statistic. -/
def runRangeInitForQuantizer (cfg : RangeInitConfig) (force : Option Bool)
    (eps : ℚ) (data : List (List ℚ)) (q : QuantizerState) : RangeInitOutcome :=
  if cfg.num_init_samples = 0 then { state := q, registeredBatches := 0 }
  else
    match statByType cfg.init_type cfg.init_type_specific_params
        (data.take cfg.num_init_samples) with
    | some (mn, mx) =>
        { state := applyMinMaxInit force eps q mn mx
          registeredBatches := (data.take cfg.num_init_samples).length }
    | none => { state := q, registeredBatches := (data.take cfg.num_init_samples).length }

/-! ## Persisted-state loading and parameter identity

Modelled from the spec: persisted state is a flat mapping from
fully-qualified parameter path to value, consumed by a state-loading
operation that overwrites the named parameters' values directly (in place,
bypassing range initialization for them). Each parameter cell carries an
identity token standing for the storage it occupies; operations that write
in place keep the token, so a changed token would mean the tensor object was
reallocated or replaced. -/

structure ParamCell where
  ident : ℕ
  value : ℚ
deriving DecidableEq

structure ModelParams where
  entries : List (String × ParamCell)

/-- Look up a parameter cell by its fully-qualified name. -/
def ModelParams.lookup (m : ModelParams) (n : String) : Option ParamCell :=
  (m.entries.find? (fun p => p.1 = n)).map (fun p => p.2)

/-- Modelled from the spec: `load_state` overwrites, in place, the value of
every parameter named in the persisted mapping and touches nothing else. -/
def load_state (m : ModelParams) (stateDict : List (String × ℚ)) : ModelParams :=
  { entries := m.entries.map (fun e =>
      match stateDict.find? (fun s => s.1 = e.1) with
      | some s => (e.1, { ident := e.2.ident, value := s.2 })
      | none => e) }

/-- Modelled from the spec: ad-hoc range initialization recomputes, in
place, the scale value of every parameter that belongs to a quantizer listed
for initialization (running the full single-quantizer driver on the
calibration data) and leaves every other parameter cell untouched. -/
def init_range (m : ModelParams) (quantizers : List (String × RangeInitConfig))
    (force : Option Bool) (eps : ℚ) (data : List (List ℚ)) : ModelParams :=
  { entries := m.entries.map (fun e =>
      match quantizers.find? (fun s => s.1 = e.1) with
      | some s =>
          (e.1, { ident := e.2.ident
                  value := (runRangeInitForQuantizer s.2 force eps data
                    { signed := false, scale := e.2.value }).state.scale })
      | none => e) }

/-- The identity tokens of a parameter store, in declaration order. -/
def ModelParams.idents (m : ModelParams) : List (String × ℕ) :=
  m.entries.map (fun e => (e.1, e.2.ident))

/-! ## The L2Norm example layer

Embedded from examples/torch/object_detection/layers/modules/l2norm.py.
Tensors are indexed functions over (batch, channel, height, width); the
square root of the host runtime is abstracted as the `sqrt` parameter, used
identically by both code paths. -/

/-- `L2Norm.forward` in training mode:
`norm = x.pow(2).sum(dim=1, keepdim=True).sqrt() + eps`,
`x = x / norm`, then the channel weight broadcast over batch and spatial
dimensions is multiplied in. -/
def L2Norm_forward_train (sqrt : ℚ → ℚ) (B C H W : ℕ)
    (x : Fin B → Fin C → Fin H → Fin W → ℚ) (weight : Fin C → ℚ) (eps : ℚ) :
    Fin B → Fin C → Fin H → Fin W → ℚ :=
  fun b c h w =>
    let norm := sqrt (∑ j : Fin C, (x b j h w) ^ 2) + eps
    weight c * (x b c h w / norm)

/-- `L2NormFunction.forward` (the eval-mode path dispatched through
`L2NormFunction.apply`): the same normalization computed inside the autograd
function with the module's weight and eps. -/
def L2NormFunction_forward (sqrt : ℚ → ℚ) (B C H W : ℕ)
    (x : Fin B → Fin C → Fin H → Fin W → ℚ) (weight : Fin C → ℚ) (eps : ℚ) :
    Fin B → Fin C → Fin H → Fin W → ℚ :=
  fun b c h w =>
    let norm := sqrt (∑ j : Fin C, (x b j h w) ^ 2) + eps
    weight c * (x b c h w / norm)

/-- The autograd context of `L2NormFunction`; its `forward` saves nothing
into it. -/
structure AutogradCtx where
  saved : List (Fin 1 → ℚ) := []

/-- `L2NormFunction.backward(ctx, *grad_outputs)` returns `grad_outputs[0]`:
the first incoming gradient, unchanged. Indexing an empty tuple is the one
failure, hence the `Option`. `G` is the type of gradient tensors. -/
def L2NormFunction_backward (G : Type) (_ctx : AutogradCtx)
    (gradOutputs : List G) : Option G :=
  gradOutputs.head?

/-! ## The synthetic calibration fixture

The reference input of the range-init tests: one sample of shape
(3, 100, 100) whose channel 0 holds value `i * 100 + j` at position (i, j)
and whose channels 1 and 2 are copies of channel 0. -/

/-- One channel of the synthetic sample, flattened in row-major order. -/
def syntheticChannel : List ℚ :=
  (List.range 100).flatMap (fun i => (List.range 100).map (fun j => ((i * 100 + j : ℕ) : ℚ)))

/-- The population a per-channel buffering collector holds for channel 0
after registering the synthetic sample once. -/
def syntheticBuffer : List ℚ := bufferCollect [syntheticChannel]

/-- An exact-equality scope matcher, the non-regex case of the scope
matcher, used to instantiate the resolution theorems. -/
def exactMatch (node pat : String) : Bool := node == pat

/-- A general rule with no applicability restrictions. -/
def genRule : PerLayerRangeInitConfig :=
  { base := { init_type := "mean_min_max", num_init_samples := 2 } }

/-- A specific rule targeting only the node `conv1`. -/
def specRule : PerLayerRangeInitConfig :=
  { base := { init_type := "min_max", num_init_samples := 1 }
    target_scopes := some ["conv1"] }

/-- A well-formed all-ones tensor of the reference input shape of the
scale-shape tests. -/
def shapeLawTensor : PTTensor :=
  { shape := [41, 42, 43, 44], data := List.replicate 3258024 1 }

/-- The ascending half of the sorted absolute deviations of the synthetic
channel from its median: 1/2, 3/2, ..., 9999/2. -/
def ascHalf : List ℚ := (List.range 5000).map (fun v => ((v : ℕ) : ℚ) + 1 / 2)

/-- The sorted absolute deviations of the synthetic channel from its median:
every value k + 1/2 for k < 5000, twice, ascending. -/
def sortedDevList : List ℚ :=
  (List.range 10000).map (fun k => ((k / 2 : ℕ) : ℚ) + 1 / 2)

/-! ## Resolution lemmas and the scope-resolution claims -/

/-- Folding the rule iteration from any accumulator yields the last
applicable rule's configuration, or the accumulator when no rule applies. -/
theorem foldl_resolveStep_eq (matchFn : String → String → Bool) (qp : QuantizationPoint) :
    ∀ (rules : List PerLayerRangeInitConfig) (acc : Option RangeInitConfig),
      rules.foldl (resolveStep matchFn qp) acc =
        ((rules.filter (ruleApplies matchFn qp)).getLast?).elim acc (fun r => some r.base) := by
  intro rules
  induction rules with
  | nil => intro acc; simp
  | cons r rs ih =>
    intro acc
    rw [List.foldl_cons, ih]
    by_cases h : ruleApplies matchFn qp r
    · rw [List.filter_cons_of_pos h]
      cases hfl : rs.filter (ruleApplies matchFn qp) with
      | nil => simp [hfl, resolveStep, h]
      | cons x xs =>
        rw [List.getLast?_cons_cons]
        cases hy : (x :: xs).getLast? with
        | none => exact absurd hy (by simp)
        | some y => simp [hfl, hy]
    · rw [List.filter_cons_of_neg h]
      simp [resolveStep, h]

/-- Claim C1: for every ordered list of per-layer range-init rules and every
quantization insertion point, `get_init_config_for_quantization_point`
returns the configuration of the last applicable rule in declaration order —
later rules override earlier ones, so a general rule declared before a
specific matching rule loses to it. -/
theorem C1_last_applicable_rule_wins (matchFn : String → String → Bool)
    (params : RangeInitParams) (qp : QuantizationPoint) (r : PerLayerRangeInitConfig)
    (hlast : (params.per_layer_range_init_configs.filter
        (ruleApplies matchFn qp)).getLast? = some r) :
    get_init_config_for_quantization_point matchFn params qp = Except.ok r.base := by
  unfold get_init_config_for_quantization_point
  rw [foldl_resolveStep_eq, hlast]
  rfl

/-- Witness for C1: with the general rule declared before the specific
matching rule, the point at `conv1` resolves to the specific rule's
configuration, not the general one's. -/
theorem C1_last_applicable_rule_wins_witness :
    get_init_config_for_quantization_point exactMatch
      { global_init_config := none
        per_layer_range_init_configs := [genRule, specRule] }
      { node_name := "conv1", group := QuantizerGroup.WEIGHTS }
      = Except.ok specRule.base :=
  C1_last_applicable_rule_wins exactMatch _ _ specRule (by decide)

/-- Claim C2: a per-layer rule is applicable to a quantization point iff the
quantizer-group filter is unset or equals the point's group, and the target
scopes are unset or at least one target pattern matches the node identifier,
and the ignored scopes are unset or none of the ignored patterns matches. -/
theorem C2_rule_applicability (matchFn : String → String → Bool)
    (qp : QuantizationPoint) (r : PerLayerRangeInitConfig) :
    ruleApplies matchFn qp r = true ↔
      ((r.target_quantizer_group = none ∨ r.target_quantizer_group = some qp.group)
       ∧ (r.target_scopes = none ∨
          ∃ pats, r.target_scopes = some pats ∧ ∃ p ∈ pats, matchFn qp.node_name p = true)
       ∧ (r.ignored_scopes = none ∨
          ∃ pats, r.ignored_scopes = some pats ∧ ∀ p ∈ pats, matchFn qp.node_name p = false)) := by
  obtain ⟨base, ts, igs, tg⟩ := r
  unfold ruleApplies
  cases tg <;> cases ts <;> cases igs <;>
    simp [List.any_eq_true, List.all_eq_true] <;> tauto

/-- Claim C4: when no per-layer rule applies to a point, resolution falls
back to the global default configuration, and fails with a configuration
error exactly when that default is also absent; conversely, with the global
default absent, resolution still succeeds for every point matched by some
per-layer rule. -/
theorem C4_global_fallback_and_fatal_absence (matchFn : String → String → Bool)
    (rules : List PerLayerRangeInitConfig) (qp : QuantizationPoint) :
    ((∀ r ∈ rules, ruleApplies matchFn qp r = false) →
      (∀ g : RangeInitConfig,
        get_init_config_for_quantization_point matchFn
          { global_init_config := some g, per_layer_range_init_configs := rules } qp
          = Except.ok g)
      ∧ get_init_config_for_quantization_point matchFn
          { global_init_config := none, per_layer_range_init_configs := rules } qp
          = Except.error RangeInitError.configurationError)
    ∧ ((∃ r ∈ rules, ruleApplies matchFn qp r = true) →
      ∃ c : RangeInitConfig,
        get_init_config_for_quantization_point matchFn
          { global_init_config := none, per_layer_range_init_configs := rules } qp
          = Except.ok c) := by
  constructor
  · intro hnone
    have hfil : rules.filter (ruleApplies matchFn qp) = [] := by
      simp only [List.filter_eq_nil_iff]
      intro r hr
      simp [hnone r hr]
    constructor
    · intro g
      unfold get_init_config_for_quantization_point
      rw [foldl_resolveStep_eq]
      simp [hfil]
    · unfold get_init_config_for_quantization_point
      rw [foldl_resolveStep_eq]
      simp [hfil]
  · rintro ⟨r, hr, happ⟩
    have hmem : r ∈ rules.filter (ruleApplies matchFn qp) :=
      List.mem_filter.mpr ⟨hr, happ⟩
    have hne : rules.filter (ruleApplies matchFn qp) ≠ [] :=
      List.ne_nil_of_mem hmem
    obtain ⟨y, hy⟩ := Option.isSome_iff_exists.mp (List.getLast?_isSome.mpr hne)
    exact ⟨y.base, C1_last_applicable_rule_wins matchFn _ qp y hy⟩

/-! ## Batch-chunking lemmas for the collectors -/

theorem foldl_min_eq (l : List ℚ) : l ≠ [] → ∀ a : ℚ, l.foldl min a = min a (listMin l) := by
  induction l with
  | nil => intro h; exact absurd rfl h
  | cons y ys ih =>
    intro _ a
    cases ys with
    | nil => simp [listMin]
    | cons z zs =>
      have h2 := ih (by simp)
      calc ((y :: z :: zs).foldl min a) = (z :: zs).foldl min (min a y) := rfl
        _ = min (min a y) (listMin (z :: zs)) := h2 (min a y)
        _ = min a (min y (listMin (z :: zs))) := min_assoc a y _
        _ = min a (listMin (y :: z :: zs)) := by
              have : listMin (y :: z :: zs) = min y (listMin (z :: zs)) := h2 y
              rw [this]

theorem foldl_max_eq (l : List ℚ) : l ≠ [] → ∀ a : ℚ, l.foldl max a = max a (listMax l) := by
  induction l with
  | nil => intro h; exact absurd rfl h
  | cons y ys ih =>
    intro _ a
    cases ys with
    | nil => simp [listMax]
    | cons z zs =>
      have h2 := ih (by simp)
      calc ((y :: z :: zs).foldl max a) = (z :: zs).foldl max (max a y) := rfl
        _ = max (max a y) (listMax (z :: zs)) := h2 (max a y)
        _ = max a (max y (listMax (z :: zs))) := max_assoc a y _
        _ = max a (listMax (y :: z :: zs)) := by
              have : listMax (y :: z :: zs) = max y (listMax (z :: zs)) := h2 y
              rw [this]

theorem listMin_append (l₁ l₂ : List ℚ) (h₁ : l₁ ≠ []) (h₂ : l₂ ≠ []) :
    listMin (l₁ ++ l₂) = min (listMin l₁) (listMin l₂) := by
  cases l₁ with
  | nil => exact absurd rfl h₁
  | cons x xs =>
    calc listMin ((x :: xs) ++ l₂) = ((xs ++ l₂).foldl min x) := rfl
      _ = l₂.foldl min (xs.foldl min x) := List.foldl_append ..
      _ = min (xs.foldl min x) (listMin l₂) := foldl_min_eq l₂ h₂ _
      _ = min (listMin (x :: xs)) (listMin l₂) := rfl

theorem listMax_append (l₁ l₂ : List ℚ) (h₁ : l₁ ≠ []) (h₂ : l₂ ≠ []) :
    listMax (l₁ ++ l₂) = max (listMax l₁) (listMax l₂) := by
  cases l₁ with
  | nil => exact absurd rfl h₁
  | cons x xs =>
    calc listMax ((x :: xs) ++ l₂) = ((xs ++ l₂).foldl max x) := rfl
      _ = l₂.foldl max (xs.foldl max x) := List.foldl_append ..
      _ = max (xs.foldl max x) (listMax l₂) := foldl_max_eq l₂ h₂ _
      _ = max (listMax (x :: xs)) (listMax l₂) := rfl

theorem minMax_run_from_some (bs : List (List ℚ)) :
    bs ≠ [] → (∀ b ∈ bs, b ≠ []) → ∀ a c : ℚ,
      bs.foldl minMaxRegister (some (a, c)) =
        some (min a (listMin bs.flatten), max c (listMax bs.flatten)) := by
  induction bs with
  | nil => intro h; exact absurd rfl h
  | cons s ss ih =>
    intro _ hall a c
    have hs : s ≠ [] := hall s (by simp)
    cases ss with
    | nil =>
      simp only [List.foldl_cons, List.foldl_nil, minMaxRegister, List.flatten_cons,
        List.flatten_nil, List.append_nil]
    | cons t ts =>
      have hflat : (t :: ts).flatten ≠ [] := by
        have ht : t ≠ [] := hall t (by simp)
        simp only [List.flatten_cons]
        exact fun hcon => ht (List.append_eq_nil.mp hcon).1
      calc ((s :: t :: ts).foldl minMaxRegister (some (a, c)))
          = (t :: ts).foldl minMaxRegister
              (some (min a (listMin s), max c (listMax s))) := rfl
        _ = some (min (min a (listMin s)) (listMin (t :: ts).flatten),
              max (max c (listMax s)) (listMax (t :: ts).flatten)) :=
            ih (by simp) (fun b hb => hall b (List.mem_cons_of_mem s hb)) _ _
        _ = some (min a (listMin ((s :: t :: ts).flatten)),
              max c (listMax ((s :: t :: ts).flatten))) := by
            simp only [List.flatten_cons] at hflat ⊢
            rw [listMin_append s _ hs hflat,
              listMax_append s _ hs hflat, min_assoc, max_assoc]

theorem minMaxCollect_eq_flatten (bs : List (List ℚ)) (hne : bs ≠ [])
    (hall : ∀ b ∈ bs, b ≠ []) :
    minMaxCollect bs = some (listMin bs.flatten, listMax bs.flatten) := by
  cases bs with
  | nil => exact absurd rfl hne
  | cons s ss =>
    have hs : s ≠ [] := hall s (by simp)
    cases ss with
    | nil =>
      simp only [minMaxCollect, List.foldl_cons, List.foldl_nil, minMaxRegister,
        List.flatten_cons, List.flatten_nil, List.append_nil]
    | cons t ts =>
      have hflat : (t :: ts).flatten ≠ [] := by
        have ht : t ≠ [] := hall t (by simp)
        simp only [List.flatten_cons]
        exact fun hcon => ht (List.append_eq_nil.mp hcon).1
      calc minMaxCollect (s :: t :: ts)
          = (t :: ts).foldl minMaxRegister (some (listMin s, listMax s)) := rfl
        _ = some (min (listMin s) (listMin (t :: ts).flatten),
              max (listMax s) (listMax (t :: ts).flatten)) :=
            minMax_run_from_some _ (by simp)
              (fun b hb => hall b (List.mem_cons_of_mem s hb)) _ _
        _ = some (listMin ((s :: t :: ts).flatten), listMax ((s :: t :: ts).flatten)) := by
            simp only [List.flatten_cons] at hflat ⊢
            rw [listMin_append s _ hs hflat, listMax_append s _ hs hflat]

theorem bufferCollect_eq_flatten (bs : List (List ℚ)) : bufferCollect bs = bs.flatten := by
  suffices h : ∀ acc : List ℚ, bs.foldl (· ++ ·) acc = acc ++ bs.flatten by
    simpa using h []
  induction bs with
  | nil => intro acc; simp
  | cons s ss ih =>
    intro acc
    simp only [List.foldl_cons, List.flatten_cons, ih (acc ++ s), List.append_assoc]

/-- Claim C6 (amended): for the `min_max`, `threesigma` and `percentile`
collector variants, registering the same aggregate data as one size-N batch
or as N size-1 batches yields an identical final statistic; the
`mean_min_max` variant is excluded because its mean of per-batch minima and
maxima depends on the chunking. -/
theorem C6_chunking_invariance (samples : List (List ℚ)) (hne : samples ≠ [])
    (hall : ∀ s ∈ samples, s ≠ []) (qlo qhi : ℚ) :
    minMaxCollect [samples.flatten] = minMaxCollect samples
    ∧ (threeSigmaStatMin (bufferCollect [samples.flatten]),
       threeSigmaStatMax (bufferCollect [samples.flatten]))
      = (threeSigmaStatMin (bufferCollect samples),
         threeSigmaStatMax (bufferCollect samples))
    ∧ (percentileValue (bufferCollect [samples.flatten]) qlo,
       percentileValue (bufferCollect [samples.flatten]) qhi)
      = (percentileValue (bufferCollect samples) qlo,
         percentileValue (bufferCollect samples) qhi) := by
  have hflatne : samples.flatten ≠ [] := by
    cases samples with
    | nil => exact absurd rfl hne
    | cons s ss =>
      have hs : s ≠ [] := hall s (by simp)
      simp only [List.flatten_cons]
      exact fun hcon => hs (List.append_eq_nil.mp hcon).1
  have hbuf : bufferCollect [samples.flatten] = bufferCollect samples := by
    rw [bufferCollect_eq_flatten, bufferCollect_eq_flatten]
    simp
  refine ⟨?_, by rw [hbuf], by rw [hbuf]⟩
  rw [minMaxCollect_eq_flatten [samples.flatten] (by simp) (by simpa using hflatne),
    minMaxCollect_eq_flatten samples hne hall]
  simp

/-- Claim C6 counterexample: the claim includes the `mean_min_max` variant,
but registering the aggregate data 0, 10 as one batch of two values gives the
statistic (0, 10) while registering it as two one-value batches gives
(5, 5) — the mean of per-batch minima is not invariant to chunking. -/
theorem C6_counterexample :
    meanMinMaxStat (meanMinMaxCollect [[0, 10]]) ≠
      meanMinMaxStat (meanMinMaxCollect [[0], [10]]) := by
  simp only [meanMinMaxCollect, List.foldl_cons, List.foldl_nil, meanMinMaxRegister,
    meanMinMaxStat, listMin, listMax]
  norm_num [min_def, max_def]

/-- Witness for the amended C6 at the concrete aggregate data 1, 2, 3 split
as one batch of three values versus three one-value batches. -/
theorem C6_chunking_invariance_witness :
    minMaxCollect [[(1 : ℚ), 2, 3]] = minMaxCollect [[1], [2], [3]]
    ∧ (threeSigmaStatMin (bufferCollect [[(1 : ℚ), 2, 3]]),
       threeSigmaStatMax (bufferCollect [[(1 : ℚ), 2, 3]]))
      = (threeSigmaStatMin (bufferCollect [[1], [2], [3]]),
         threeSigmaStatMax (bufferCollect [[1], [2], [3]]))
    ∧ (percentileValue (bufferCollect [[(1 : ℚ), 2, 3]]) 10,
       percentileValue (bufferCollect [[(1 : ℚ), 2, 3]]) 90)
      = (percentileValue (bufferCollect [[1], [2], [3]]) 10,
         percentileValue (bufferCollect [[1], [2], [3]]) 90) := by
  have h := C6_chunking_invariance [[(1 : ℚ)], [2], [3]] (by simp)
    (by intro s hs
        simp only [List.mem_cons, List.not_mem_nil, or_false] at hs
        rcases hs with h | h | h <;> subst h <;> simp) 10 90
  simpa using h

theorem foldl_minMaxRegister_from_some :
    ∀ (bs : List (List ℚ)) (x : ℚ × ℚ), ∃ y : ℚ × ℚ,
      bs.foldl minMaxRegister (some x) = some y := by
  intro bs
  induction bs with
  | nil => intro x; exact ⟨x, rfl⟩
  | cons b bs ih =>
    intro x
    obtain ⟨x1, x2⟩ := x
    obtain ⟨y, hy⟩ := ih (min x1 (listMin b), max x2 (listMax b))
    exact ⟨y, by simpa [minMaxRegister] using hy⟩

/-- Claim C7: a quantizer whose resolved configuration has
`num_init_samples = 0` undergoes no statistic collection at all and keeps its
default (uninitialized) state, while a quantizer with a positive sample count
(shown for the `min_max` initializer) registers calibration batches and has
its state computed from their statistic by `apply_minmax_init`. -/
theorem C7_zero_init_samples_skips_collection (cfg : RangeInitConfig)
    (force : Option Bool) (eps : ℚ) (data : List (List ℚ)) (q : QuantizerState) :
    (cfg.num_init_samples = 0 →
      runRangeInitForQuantizer cfg force eps data q
        = { state := q, registeredBatches := 0 })
    ∧ (0 < cfg.num_init_samples → cfg.init_type = "min_max" → data ≠ [] →
      ∃ mn mx : ℚ,
        statByType cfg.init_type cfg.init_type_specific_params
          (data.take cfg.num_init_samples) = some (mn, mx)
        ∧ runRangeInitForQuantizer cfg force eps data q
          = { state := applyMinMaxInit force eps q mn mx
              registeredBatches := (data.take cfg.num_init_samples).length }
        ∧ 0 < (runRangeInitForQuantizer cfg force eps data q).registeredBatches) := by
  constructor
  · intro h0
    unfold runRangeInitForQuantizer
    rw [if_pos h0]
  · intro hpos hty hdata
    obtain ⟨n, hn⟩ : ∃ n, cfg.num_init_samples = n + 1 :=
      ⟨cfg.num_init_samples - 1, by omega⟩
    cases data with
    | nil => exact absurd rfl hdata
    | cons d ds =>
      have htake : (d :: ds).take cfg.num_init_samples = d :: ds.take n := by
        rw [hn, List.take_succ_cons]
      have hstat : ∃ y : ℚ × ℚ,
          statByType cfg.init_type cfg.init_type_specific_params
            ((d :: ds).take cfg.num_init_samples) = some y := by
        rw [hty, htake]
        simp only [statByType, if_pos rfl]
        exact foldl_minMaxRegister_from_some (ds.take n) (listMin d, listMax d)
      obtain ⟨⟨mn, mx⟩, hy⟩ := hstat
      refine ⟨mn, mx, hy, ?_, ?_⟩
      · unfold runRangeInitForQuantizer
        rw [if_neg (by omega), hy]
      · unfold runRangeInitForQuantizer
        rw [if_neg (by omega), hy]
        simp [htake]

/-- Witness for C7: with zero samples the quantizer stays at its default
state with zero registered batches; with one sample and the `min_max`
initializer it is initialized from the calibration data. -/
theorem C7_zero_init_samples_skips_collection_witness :
    (runRangeInitForQuantizer { init_type := "min_max", num_init_samples := 0 }
        none (1 / 100) [[2, 4]] defaultQuantizerState
      = { state := defaultQuantizerState, registeredBatches := 0 })
    ∧ ∃ mn mx : ℚ,
        statByType "min_max" [] ([[(2 : ℚ), 4]].take 1) = some (mn, mx)
        ∧ runRangeInitForQuantizer { init_type := "min_max", num_init_samples := 1 }
            none (1 / 100) [[2, 4]] defaultQuantizerState
          = { state := applyMinMaxInit none (1 / 100) defaultQuantizerState mn mx
              registeredBatches := ([[(2 : ℚ), 4]].take 1).length }
        ∧ 0 < (runRangeInitForQuantizer { init_type := "min_max", num_init_samples := 1 }
            none (1 / 100) [[2, 4]] defaultQuantizerState).registeredBatches := by
  constructor
  · exact (C7_zero_init_samples_skips_collection _ none (1 / 100) [[2, 4]]
      defaultQuantizerState).1 rfl
  · exact (C7_zero_init_samples_skips_collection
      { init_type := "min_max", num_init_samples := 1 } none (1 / 100) [[2, 4]]
      defaultQuantizerState).2 (by decide) rfl (by simp)

/-- Looking up after `load_state`: the original cell keeps its identity and
takes the persisted value when its name is in the mapping, and is returned
untouched otherwise. -/
theorem lookup_load_state (m : ModelParams) (sd : List (String × ℚ)) (n : String) :
    (load_state m sd).lookup n = (m.lookup n).map (fun c =>
      match sd.find? (fun s => s.1 = n) with
      | some s => { ident := c.ident, value := s.2 }
      | none => c) := by
  obtain ⟨entries⟩ := m
  induction entries with
  | nil => simp [load_state, ModelParams.lookup]
  | cons e es ih =>
    obtain ⟨e1, e2⟩ := e
    by_cases hn : e1 = n
    · subst hn
      cases hf : sd.find? (fun s => s.1 = e1) with
      | none =>
        simp [load_state, ModelParams.lookup, hf]
      | some s =>
        simp [load_state, ModelParams.lookup, hf]
    · have hlhs : (load_state (ModelParams.mk ((e1, e2) :: es)) sd).lookup n
          = (load_state (ModelParams.mk es) sd).lookup n := by
        cases hf : sd.find? (fun s => s.1 = e1) with
        | none => simp [load_state, ModelParams.lookup, hf, hn]
        | some s => simp [load_state, ModelParams.lookup, hf, hn]
      have hrhs : (ModelParams.mk ((e1, e2) :: es)).lookup n
          = (ModelParams.mk es).lookup n := by
        simp [ModelParams.lookup, hn]
      rw [hlhs, hrhs, ih]

theorem load_state_idents (m : ModelParams) (sd : List (String × ℚ)) :
    (load_state m sd).idents = m.idents := by
  obtain ⟨entries⟩ := m
  unfold load_state ModelParams.idents
  simp only [List.map_map]
  apply List.map_congr_left
  intro e _
  cases hf : sd.find? (fun s => s.1 = e.1) with
  | none => simp [Function.comp, hf]
  | some s => simp [Function.comp, hf]

theorem init_range_idents (m : ModelParams) (quantizers : List (String × RangeInitConfig))
    (force : Option Bool) (eps : ℚ) (data : List (List ℚ)) :
    (init_range m quantizers force eps data).idents = m.idents := by
  obtain ⟨entries⟩ := m
  unfold init_range ModelParams.idents
  simp only [List.map_map]
  apply List.map_congr_left
  intro e _
  cases hf : quantizers.find? (fun s => s.1 = e.1) with
  | none => simp [Function.comp, hf]
  | some s => simp [Function.comp, hf]

/-- Claim C8: loading persisted state overwrites exactly the parameters it
names — each named cell takes the persisted value while keeping its storage
identity — and leaves every parameter it does not name completely unchanged;
moreover neither `load_state` nor ad-hoc range initialization replaces the
storage identity of any model parameter. -/
theorem C8_load_state_overwrites_exactly_named (m : ModelParams)
    (sd : List (String × ℚ)) (quantizers : List (String × RangeInitConfig))
    (force : Option Bool) (eps : ℚ) (data : List (List ℚ)) :
    (∀ (n : String) (c : ParamCell) (p : String × ℚ),
      m.lookup n = some c → sd.find? (fun s => s.1 = n) = some p →
      (load_state m sd).lookup n = some { ident := c.ident, value := p.2 })
    ∧ (∀ n : String, sd.find? (fun s => s.1 = n) = none →
      (load_state m sd).lookup n = m.lookup n)
    ∧ (load_state m sd).idents = m.idents
    ∧ (init_range m quantizers force eps data).idents = m.idents := by
  refine ⟨?_, ?_, load_state_idents m sd, init_range_idents m quantizers force eps data⟩
  · intro n c p hc hp
    rw [lookup_load_state, hc]
    simp [hp]
  · intro n hp
    rw [lookup_load_state, hp]
    cases m.lookup n <;> rfl

/-- Witness for C8: in a store with two initialized quantizer scales,
loading state that names only the first overwrites exactly it (keeping its
identity token) and leaves the second untouched, and both operations keep
every identity token. -/
theorem C8_load_state_overwrites_exactly_named_witness :
    (load_state (ModelParams.mk [("q1.scale", { ident := 1, value := 5 }),
        ("q2.scale", { ident := 2, value := 7 })]) [("q1.scale", 100)]).lookup "q1.scale"
      = some { ident := 1, value := 100 }
    ∧ (load_state (ModelParams.mk [("q1.scale", { ident := 1, value := 5 }),
        ("q2.scale", { ident := 2, value := 7 })]) [("q1.scale", 100)]).lookup "q2.scale"
      = (ModelParams.mk [("q1.scale", { ident := 1, value := 5 }),
        ("q2.scale", { ident := 2, value := 7 })]).lookup "q2.scale"
    ∧ (load_state (ModelParams.mk [("q1.scale", { ident := 1, value := 5 }),
        ("q2.scale", { ident := 2, value := 7 })]) [("q1.scale", 100)]).idents
      = (ModelParams.mk [("q1.scale", { ident := 1, value := 5 }),
        ("q2.scale", { ident := 2, value := 7 })]).idents
    ∧ (init_range (ModelParams.mk [("q1.scale", { ident := 1, value := 5 }),
        ("q2.scale", { ident := 2, value := 7 })])
        [("q1.scale", { init_type := "min_max", num_init_samples := 1 })]
        none (1 / 100) [[2, 4]]).idents
      = (ModelParams.mk [("q1.scale", { ident := 1, value := 5 }),
        ("q2.scale", { ident := 2, value := 7 })]).idents := by
  have h := C8_load_state_overwrites_exactly_named
    (ModelParams.mk [("q1.scale", { ident := 1, value := 5 }),
      ("q2.scale", { ident := 2, value := 7 })]) [("q1.scale", 100)]
    [("q1.scale", { init_type := "min_max", num_init_samples := 1 })]
    none (1 / 100) [[2, 4]]
  exact ⟨h.1 "q1.scale" { ident := 1, value := 5 } ("q1.scale", 100) rfl rfl,
    h.2.1 "q2.scale" rfl, h.2.2.1, h.2.2.2⟩

/-! ## The L2Norm claims -/

/-- Claim C9: the backward pass of the example normalization layer's
autograd function is a straight-through identity — for every incoming
gradient it returns the first gradient output unchanged, independently of
the forward inputs (the context, which is all `forward` could have saved
into, is ignored). -/
theorem C9_backward_is_straight_through (G : Type) (ctx : AutogradCtx)
    (g : G) (rest : List G) :
    L2NormFunction_backward G ctx (g :: rest) = some g := rfl

/-- Claim C10: the training-mode forward of `L2Norm` and the eval-mode
forward delegated to `L2NormFunction.forward` compute identical outputs, and
both equal the channel weight times the input divided by the square root of
the channel-wise sum of squares plus eps. -/
theorem C10_train_eval_forward_agree (sqrt : ℚ → ℚ) (B C H W : ℕ)
    (x : Fin B → Fin C → Fin H → Fin W → ℚ) (weight : Fin C → ℚ) (eps : ℚ) :
    L2Norm_forward_train sqrt B C H W x weight eps
      = L2NormFunction_forward sqrt B C H W x weight eps
    ∧ ∀ (b : Fin B) (c : Fin C) (h : Fin H) (w : Fin W),
      L2Norm_forward_train sqrt B C H W x weight eps b c h w
        = weight c * (x b c h w / (sqrt (∑ j : Fin C, (x b j h w) ^ 2) + eps)) :=
  ⟨rfl, fun _ _ _ _ => rfl⟩

/-! ## The scale-shape claim -/

theorem statByType_singleton_isSome (ty : String) (hty : ty ∈ knownInitTypes)
    (ps : List (String × ℚ)) (b : List ℚ) :
    (statByType ty ps [b]).isSome := by
  fin_cases hty <;>
    simp [statByType, minMaxCollect, minMaxRegister]

theorem collectorStatTensors_perTensor (ty : String) (ps : List (String × ℚ))
    (axis : ℕ) (t : PTTensor) (mn mx : ℚ)
    (hstat : statByType ty ps [t.data] = some (mn, mx)) :
    collectorStatTensors ty ps false axis [t] =
      some ({ shape := [1], data := [mn] }, { shape := [1], data := [mx] }) := by
  simp only [collectorStatTensors, List.map_cons, List.map_nil, Bool.false_eq_true,
    if_false, hstat]

theorem collectorStatTensors_perChannel (ty : String) (ps : List (String × ℚ))
    (axis : ℕ) (t : PTTensor)
    (hall : ∀ c : ℕ, (statByType ty ps [channelSlice t axis c]).isSome) :
    collectorStatTensors ty ps true axis [t] =
      some ({ shape := scale_shape t.shape true axis,
              data := (List.range (dimAt t.shape axis)).map
                (fun c => ((statByType ty ps [channelSlice t axis c]).getD (0, 0)).1) },
            { shape := scale_shape t.shape true axis,
              data := (List.range (dimAt t.shape axis)).map
                (fun c => ((statByType ty ps [channelSlice t axis c]).getD (0, 0)).2) }) := by
  have h : (((List.range (dimAt t.shape axis)).map
      (fun c => statByType ty ps [channelSlice t axis c])).all (fun o => o.isSome)) = true := by
    rw [List.all_eq_true]
    intro o ho
    obtain ⟨c, _, rfl⟩ := List.mem_map.mp ho
    exact hall c
  simp only [collectorStatTensors, List.map_cons, List.map_nil, if_true, h,
    List.map_map]
  rfl

/-- Claim C5: for input shape [41, 42, 43, 44] the derived scale shape is
(1,) whenever per-channel is off, (1, 42, 1, 1) for per-channel activations
(channel axis 1) and (41, 1, 1, 1) for per-channel weights (channel axis 0) —
the input shape with every axis except the channel axis set to 1 — and every
known collector variant produces min/max statistic tensors of exactly that
shape, from which both the symmetric scale and the asymmetric
input_low/input_range parameter tensors inherit it. -/
theorem C5_scale_shape_law (t : PTTensor) (hsh : t.shape = [41, 42, 43, 44])
    (ty : String) (hty : ty ∈ knownInitTypes) (ps : List (String × ℚ)) (eps : ℚ) :
    (scale_shape t.shape false 1 = [1]
     ∧ scale_shape t.shape false 0 = [1]
     ∧ scale_shape t.shape true 1 = [1, 42, 1, 1]
     ∧ scale_shape t.shape true 0 = [41, 1, 1, 1])
    ∧ (∀ (per_channel : Bool) (axis : ℕ), (axis = 0 ∨ axis = 1) →
      ∃ mnT mxT : PTTensor,
        collectorStatTensors ty ps per_channel axis [t] = some (mnT, mxT)
        ∧ mnT.shape = scale_shape t.shape per_channel axis
        ∧ mxT.shape = scale_shape t.shape per_channel axis
        ∧ mnT.wf ∧ mxT.wf
        ∧ (symScaleTensor eps mnT mxT).shape = scale_shape t.shape per_channel axis
        ∧ (asymLowTensor mnT).shape = scale_shape t.shape per_channel axis
        ∧ (asymRangeTensor eps mnT mxT).shape = scale_shape t.shape per_channel axis
        ∧ (symScaleTensor eps mnT mxT).wf
        ∧ (asymLowTensor mnT).wf
        ∧ (asymRangeTensor eps mnT mxT).wf) := by
  constructor
  · rw [hsh]
    exact ⟨by decide, by decide, by decide, by decide⟩
  · intro pc axis haxis
    cases pc with
    | false =>
      obtain ⟨⟨mn, mx⟩, hstat⟩ := Option.isSome_iff_exists.mp
        (statByType_singleton_isSome ty hty ps t.data)
      refine ⟨{ shape := [1], data := [mn] }, { shape := [1], data := [mx] },
        collectorStatTensors_perTensor ty ps axis t mn mx hstat,
        rfl, rfl, ?_, ?_, rfl, rfl, rfl, ?_, ?_, ?_⟩ <;>
        simp [PTTensor.wf, symScaleTensor, asymLowTensor, asymRangeTensor, scale_shape]
    | true =>
      have hall : ∀ c : ℕ, (statByType ty ps [channelSlice t axis c]).isSome :=
        fun c => statByType_singleton_isSome ty hty ps (channelSlice t axis c)
      refine ⟨_, _, collectorStatTensors_perChannel ty ps axis t hall,
        rfl, rfl, ?_, ?_, rfl, rfl, rfl, ?_, ?_, ?_⟩ <;>
        rcases haxis with rfl | rfl <;>
        simp [PTTensor.wf, symScaleTensor, asymLowTensor, asymRangeTensor,
          scale_shape, dimAt, hsh]

/-- Witness for C5 at the `min_max` collector on the all-ones input of shape
[41, 42, 43, 44], per-channel with channel axis 1. -/
theorem C5_scale_shape_law_witness :
    ∃ mnT mxT : PTTensor,
      collectorStatTensors "min_max" [] true 1 [shapeLawTensor] = some (mnT, mxT)
      ∧ mnT.shape = scale_shape shapeLawTensor.shape true 1
      ∧ mxT.shape = scale_shape shapeLawTensor.shape true 1
      ∧ mnT.wf ∧ mxT.wf
      ∧ (symScaleTensor (1 / 100) mnT mxT).shape = scale_shape shapeLawTensor.shape true 1
      ∧ (asymLowTensor mnT).shape = scale_shape shapeLawTensor.shape true 1
      ∧ (asymRangeTensor (1 / 100) mnT mxT).shape = scale_shape shapeLawTensor.shape true 1
      ∧ (symScaleTensor (1 / 100) mnT mxT).wf
      ∧ (asymLowTensor mnT).wf
      ∧ (asymRangeTensor (1 / 100) mnT mxT).wf :=
  (C5_scale_shape_law shapeLawTensor rfl "min_max" (by decide) [] (1 / 100)).2
    true 1 (Or.inr rfl)

/-! ## The synthetic threesigma fixture, analytically -/

theorem grid_index_flatten (m n : ℕ) :
    (List.range m).flatMap (fun i => (List.range n).map (fun j => i * n + j))
      = List.range (m * n) := by
  induction m with
  | zero => simp
  | succ m ih =>
    rw [List.range_succ, List.flatMap_append, ih]
    simp only [List.flatMap_cons, List.flatMap_nil, List.append_nil]
    rw [Nat.succ_mul, List.range_add]

theorem syntheticChannel_eq :
    syntheticChannel = (List.range 10000).map (fun v => ((v : ℕ) : ℚ)) := by
  unfold syntheticChannel
  calc (List.range 100).flatMap
        (fun i => (List.range 100).map (fun j => ((i * 100 + j : ℕ) : ℚ)))
      = ((List.range 100).flatMap
          (fun i => (List.range 100).map (fun j => i * 100 + j))).map
          (fun v : ℕ => (v : ℚ)) := by
        rw [List.map_flatMap]
        simp only [List.map_map]
        rfl
    _ = (List.range 10000).map (fun v : ℕ => (v : ℚ)) := by
        rw [grid_index_flatten]

theorem sorted_le_map_range_monotone {f : ℕ → ℚ} (hf : Monotone f) (n : ℕ) :
    List.Sorted (· ≤ ·) ((List.range n).map f) :=
  (List.pairwise_lt_range n).map f (fun _ _ hab => hf (le_of_lt hab))

theorem sortList_eq_of_sorted (l s : List ℚ) (hperm : l.Perm s)
    (hsort : List.Sorted (· ≤ ·) s) : sortList l = s :=
  List.eq_of_perm_of_sorted ((List.perm_insertionSort _ l).trans hperm)
    (List.sorted_insertionSort _ l) hsort

theorem getD_map_range (f : ℕ → ℚ) (n k : ℕ) (hk : k < n) :
    ((List.range n).map f).getD k 0 = f k := by
  rw [List.getD_eq_getElem?_getD, List.getElem?_map, List.getElem?_range hk]
  rfl

theorem listMedian_perm_sorted (l s : List ℚ) (hperm : l.Perm s)
    (hs : List.Sorted (· ≤ ·) s) (k : ℕ) (hlen : s.length = 2 * k) (hk : 0 < k) :
    listMedian l = (s.getD (k - 1) 0 + s.getD k 0) / 2 := by
  simp only [listMedian]
  rw [sortList_eq_of_sorted l s hperm hs, hlen]
  rw [if_neg (by omega), if_neg (by omega)]
  rw [show 2 * k / 2 = k by omega]

theorem listMedian_syntheticChannel : listMedian syntheticChannel = 9999 / 2 := by
  have hperm : syntheticChannel.Perm ((List.range 10000).map (fun v : ℕ => (v : ℚ))) := by
    rw [syntheticChannel_eq]
  have hsorted : List.Sorted (· ≤ ·) ((List.range 10000).map (fun v : ℕ => (v : ℚ))) :=
    sorted_le_map_range_monotone (fun _ _ h => Nat.cast_le.mpr h) 10000
  rw [listMedian_perm_sorted _ _ hperm hsorted 5000 (by simp) (by norm_num)]
  rw [getD_map_range _ _ _ (by norm_num), getD_map_range _ _ _ (by norm_num)]
  norm_num

theorem ascHalf_reverse :
    ascHalf.reverse = (List.range 5000).map (fun v => 9999 / 2 - ((v : ℕ) : ℚ)) := by
  unfold ascHalf
  conv_lhs => rw [← List.map_reverse, List.range_eq_range', List.reverse_range',
    List.map_map]
  apply List.map_congr_left
  intro i hi
  have hi' : i < 5000 := List.mem_range.mp hi
  simp only [Function.comp_apply]
  rw [show 0 + 5000 - 1 - i = 4999 - i by omega, Nat.cast_sub (by omega)]
  push_cast
  ring

theorem devs_eq_append :
    syntheticChannel.map (fun x => |x - 9999 / 2|) = ascHalf.reverse ++ ascHalf := by
  rw [syntheticChannel_eq, List.map_map,
    show (10000 : ℕ) = 5000 + 5000 by norm_num, List.range_add,
    List.map_append, ascHalf_reverse]
  congr 1
  · apply List.map_congr_left
    intro v hv
    have hv' : v < 5000 := List.mem_range.mp hv
    have hvq : ((v : ℕ) : ℚ) ≤ 4999 := by
      have : v ≤ 4999 := by omega
      exact_mod_cast this
    simp only [Function.comp_apply]
    rw [abs_of_nonpos (by linarith)]
    ring
  · unfold ascHalf
    rw [List.map_map]
    apply List.map_congr_left
    intro v hv
    simp only [Function.comp_apply]
    have : ((5000 + v : ℕ) : ℚ) = 5000 + (v : ℚ) := by push_cast; ring
    rw [this, abs_of_nonneg (by
      have hv0 : (0 : ℚ) ≤ ((v : ℕ) : ℚ) := Nat.cast_nonneg v
      linarith)]
    ring

theorem append_self_perm_flatMap_pair (l : List ℚ) :
    (l ++ l).Perm (l.flatMap (fun x => [x, x])) := by
  induction l with
  | nil => simp
  | cons x xs ih =>
    simp only [List.cons_append, List.flatMap_cons]
    exact List.Perm.cons x (List.Perm.trans List.perm_middle (List.Perm.cons x ih))

theorem map_halved_range (g : ℕ → ℚ) (n : ℕ) :
    (List.range (2 * n)).map (fun k => g (k / 2))
      = (List.range n).flatMap (fun v => [g v, g v]) := by
  induction n with
  | zero => simp
  | succ n ih =>
    rw [List.range_succ, List.flatMap_append, ← ih]
    rw [show 2 * (n + 1) = (2 * n + 1) + 1 by ring, List.range_succ, List.range_succ]
    rw [List.map_append, List.map_append]
    rw [List.append_assoc]
    congr 1
    simp only [List.map_cons, List.map_nil, List.flatMap_cons, List.flatMap_nil,
      List.append_nil, List.singleton_append]
    rw [show (2 * n) / 2 = n by omega, show (2 * n + 1) / 2 = n by omega]

theorem sortedDevList_sorted : List.Sorted (· ≤ ·) sortedDevList := by
  unfold sortedDevList
  apply sorted_le_map_range_monotone
  intro a b hab
  have h1 : a / 2 ≤ b / 2 := Nat.div_le_div_right hab
  have h2 : ((a / 2 : ℕ) : ℚ) ≤ ((b / 2 : ℕ) : ℚ) := Nat.cast_le.mpr h1
  linarith

theorem devs_perm :
    (syntheticChannel.map (fun x => |x - 9999 / 2|)).Perm sortedDevList := by
  rw [devs_eq_append]
  have h1 : (ascHalf.reverse ++ ascHalf).Perm (ascHalf ++ ascHalf) :=
    (List.reverse_perm ascHalf).append_right ascHalf
  have h2 : (ascHalf ++ ascHalf).Perm (ascHalf.flatMap (fun x => [x, x])) :=
    append_self_perm_flatMap_pair ascHalf
  have h3 : ascHalf.flatMap (fun x => [x, x]) = sortedDevList := by
    unfold ascHalf
    rw [List.flatMap_map]
    rw [show sortedDevList
        = (List.range (2 * 5000)).map (fun k => ((k / 2 : ℕ) : ℚ) + 1 / 2) by
      unfold sortedDevList; norm_num]
    rw [map_halved_range (fun v => ((v : ℕ) : ℚ) + 1 / 2) 5000]
  exact h1.trans (h2.trans (by rw [h3]))

theorem listMAD_syntheticChannel : listMAD syntheticChannel = 2500 := by
  unfold listMAD
  rw [listMedian_syntheticChannel]
  have hlen : sortedDevList.length = 2 * 5000 := by
    unfold sortedDevList; simp
  rw [listMedian_perm_sorted _ sortedDevList devs_perm sortedDevList_sorted 5000 hlen
    (by norm_num)]
  unfold sortedDevList
  rw [getD_map_range _ _ _ (by norm_num), getD_map_range _ _ _ (by norm_num)]
  norm_num

theorem sum_map_range_cast (n : ℕ) :
    ((List.range n).map (fun v : ℕ => (v : ℚ))).sum = (n : ℚ) * ((n : ℚ) - 1) / 2 := by
  induction n with
  | zero => simp
  | succ n ih =>
    rw [List.range_succ, List.map_append, List.sum_append, ih]
    simp only [List.map_cons, List.map_nil, List.sum_cons, List.sum_nil]
    push_cast
    ring

theorem sum_sq_dev_map_range (m : ℚ) (n : ℕ) :
    ((List.range n).map (fun v : ℕ => ((v : ℚ) - m) ^ 2)).sum
      = (n : ℚ) * m ^ 2 - (n : ℚ) * ((n : ℚ) - 1) * m
        + ((n : ℚ) - 1) * (n : ℚ) * (2 * (n : ℚ) - 1) / 6 := by
  induction n with
  | zero => simp
  | succ n ih =>
    rw [List.range_succ, List.map_append, List.sum_append, ih]
    simp only [List.map_cons, List.map_nil, List.sum_cons, List.sum_nil]
    push_cast
    ring

theorem popMean_syntheticChannel : popMean syntheticChannel = 9999 / 2 := by
  unfold popMean
  rw [syntheticChannel_eq, sum_map_range_cast]
  simp only [List.length_map, List.length_range]
  norm_num

theorem popVariance_syntheticChannel : popVariance syntheticChannel = 33333333 / 4 := by
  unfold popVariance
  rw [popMean_syntheticChannel, syntheticChannel_eq, List.map_map]
  rw [show ((fun x => (x - 9999 / 2) ^ 2) ∘ fun v : ℕ => (v : ℚ))
      = (fun v : ℕ => ((v : ℚ) - (9999 / 2 : ℚ)) ^ 2) from rfl]
  rw [sum_sq_dev_map_range]
  simp only [List.length_map, List.length_range]
  norm_num

/-- Claim C3 counterexample: on the synthetic 3×100×100 fixture the formula
the claim prescribes — mean plus three standard deviations of the buffered
per-channel population — evaluates to 4999.5 + 3·√8333333.25 ≈ 13659.75,
which is not within the claimed absolute tolerance 1.0 of the reference
upper bound 16119.5. -/
theorem C3_counterexample :
    ¬ (|specMeanStdUpper syntheticBuffer - 16119.5| ≤ 1) := by
  have hbuf : syntheticBuffer = syntheticChannel := by
    simp [syntheticBuffer, bufferCollect]
  intro habs
  unfold specMeanStdUpper at habs
  rw [hbuf, popMean_syntheticChannel, popVariance_syntheticChannel] at habs
  have hcast : (((33333333 : ℚ) / 4 : ℚ) : ℝ) = (33333333 : ℝ) / 4 := by
    push_cast
    ring
  rw [hcast] at habs
  have hsqrt : Real.sqrt ((33333333 : ℝ) / 4) ≤ 2887 := by
    rw [show (2887 : ℝ) = Real.sqrt (2887 ^ 2) from
      (Real.sqrt_sq (by norm_num)).symm]
    apply Real.sqrt_le_sqrt
    norm_num
  rw [abs_le] at habs
  have h1 := habs.1
  have hm : (((9999 : ℚ) / 2 : ℚ) : ℝ) = (9999 : ℝ) / 2 := by
    push_cast
    ring
  rw [hm] at h1
  linarith

/-- Claim C3 (amended): the threesigma collector buffers the registered
per-channel values and its final statistic is the median plus/minus three
times 1.4826 times the median absolute deviation of the buffered population;
on the synthetic 3×100×100 fixture this yields 16119.0 and −6120.0, within
absolute tolerance 1.0 of the reference band 16119.5 / −6119.5. -/
theorem C3_threesigma_median_mad_band :
    statByType "threesigma" [] [syntheticChannel]
      = some (threeSigmaStatMin syntheticBuffer, threeSigmaStatMax syntheticBuffer)
    ∧ |threeSigmaStatMax syntheticBuffer - 16119.5| ≤ 1
    ∧ |threeSigmaStatMin syntheticBuffer - (-6119.5)| ≤ 1 := by
  have hbuf : syntheticBuffer = syntheticChannel := by
    simp [syntheticBuffer, bufferCollect]
  refine ⟨rfl, ?_, ?_⟩
  · rw [hbuf]
    unfold threeSigmaStatMax madToStdFactor
    rw [listMedian_syntheticChannel, listMAD_syntheticChannel, abs_le]
    constructor <;> norm_num
  · rw [hbuf]
    unfold threeSigmaStatMin madToStdFactor
    rw [listMedian_syntheticChannel, listMAD_syntheticChannel, abs_le]
    constructor <;> norm_num

/-- Witness for C2: the specific rule is applicable to the point at `conv1`
under the exact-equality matcher, via the applicability characterization. -/
theorem C2_rule_applicability_witness :
    ruleApplies exactMatch
      { node_name := "conv1", group := QuantizerGroup.WEIGHTS } specRule = true :=
  (C2_rule_applicability exactMatch
    { node_name := "conv1", group := QuantizerGroup.WEIGHTS } specRule).mpr
    ⟨Or.inl rfl, Or.inr ⟨["conv1"], rfl, "conv1", by simp, by decide⟩, Or.inl rfl⟩

/-- Witness for C4: with one rule targeting only `conv1` and no global
default, a point at `other` resolves to the global default when present and
fails with a configuration error when absent, while the point at `conv1`
still resolves successfully without any global default. -/
theorem C4_global_fallback_and_fatal_absence_witness :
    (get_init_config_for_quantization_point exactMatch
      { global_init_config := some genRule.base
        per_layer_range_init_configs := [specRule] }
      { node_name := "other", group := QuantizerGroup.WEIGHTS }
      = Except.ok genRule.base)
    ∧ (get_init_config_for_quantization_point exactMatch
      { global_init_config := none, per_layer_range_init_configs := [specRule] }
      { node_name := "other", group := QuantizerGroup.WEIGHTS }
      = Except.error RangeInitError.configurationError)
    ∧ ∃ c : RangeInitConfig,
      get_init_config_for_quantization_point exactMatch
        { global_init_config := none, per_layer_range_init_configs := [specRule] }
        { node_name := "conv1", group := QuantizerGroup.WEIGHTS }
      = Except.ok c := by
  have h1 := C4_global_fallback_and_fatal_absence exactMatch [specRule]
    { node_name := "other", group := QuantizerGroup.WEIGHTS }
  have h2 := C4_global_fallback_and_fatal_absence exactMatch [specRule]
    { node_name := "conv1", group := QuantizerGroup.WEIGHTS }
  have hno : ∀ r ∈ [specRule], ruleApplies exactMatch
      { node_name := "other", group := QuantizerGroup.WEIGHTS } r = false := by
    decide
  exact ⟨(h1.1 hno).1 genRule.base, (h1.1 hno).2, h2.2 ⟨specRule, by simp, by decide⟩⟩
